import Mathlib

/-!
Shallow embedding of `facebook_connections.py` (class `FacebookGraph`).

Vertices are modelled as natural numbers (the Python code uses opaque,
hashable identifiers; only equality matters). The networkx adjacency
structure is modelled by the list of `add_connection` calls (`edges`),
with neighbour lists derived in insertion order, matching the dict-based
adjacency of networkx. The probabilistic store `prob_graph` is modelled
by the list of `add_probabilistic_connection` calls (`probs`), with a
last-write-wins symmetric lookup, matching the nested-dict writes
`prob_graph[u][v] = p; prob_graph[v][u] = p`.

Python `ValueError` ("user does not exist in the graph") is modelled by
`Err.unknownVertex`; fallible queries return `Except Err α`. `None` from
`find_connection_path` is modelled by `Option.none` inside `Except.ok`.
-/

namespace FB

/-- Error raised by graph queries on vertices never recorded by
`add_connection` (Python raises `ValueError`). -/
inductive Err where
  | unknownVertex
deriving DecidableEq

/-- State of a `FacebookGraph` object: the sequence of deterministic
edge insertions (`self.graph`, a networkx `Graph`) and the sequence of
probabilistic insertions (`self.prob_graph`, a dict of dicts). -/
structure FBGraph where
  edges : List (Nat × Nat)
  probs : List (Nat × Nat × ℚ)
deriving DecidableEq

/-- Freshly constructed `FacebookGraph()`: both stores empty. -/
def emptyGraph : FBGraph := ⟨[], []⟩

/-- `add_connection(user1, user2)`: `self.graph.add_edge(user1, user2)`. -/
def addConnection (g : FBGraph) (u v : Nat) : FBGraph :=
  { g with edges := g.edges ++ [(u, v)] }

/-- `add_probabilistic_connection(user1, user2, probability)`: stores the
probability under both orderings of the pair (last write wins). -/
def addProbabilisticConnection (g : FBGraph) (u v : Nat) (p : ℚ) : FBGraph :=
  { g with probs := g.probs ++ [(u, v, p)] }

/-- A graph built by a sequence of `add_connection` calls on a fresh object. -/
def buildGraph (ops : List (Nat × Nat)) : FBGraph :=
  ops.foldl (fun g e => addConnection g e.1 e.2) emptyGraph

/-- Python `x in self.graph`: networkx node membership; nodes are created
exactly by appearing as an endpoint of some `add_edge`. -/
def hasVertex (g : FBGraph) (x : Nat) : Bool :=
  g.edges.any (fun e => e.1 == x || e.2 == x)

/-- Undirected edge test: some recorded `add_connection` joins `u` and `v`. -/
def isNeighbor (g : FBGraph) (u v : Nat) : Bool :=
  g.edges.any (fun e => (e.1 == u && e.2 == v) || (e.1 == v && e.2 == u))

/-- Dict-style insertion: append `x` unless already present (networkx
adjacency dicts keep first-insertion order and never duplicate). -/
def insertAbsent (l : List Nat) (x : Nat) : List Nat :=
  if x ∈ l then l else l ++ [x]

/-- One `add_edge` step of the adjacency list of `u`. -/
def nbrStep (u : Nat) (acc : List Nat) (e : Nat × Nat) : List Nat :=
  if e.1 = u then insertAbsent acc e.2
  else if e.2 = u then insertAbsent acc e.1
  else acc

/-- `self.graph.neighbors(u)`: neighbours of `u` in insertion order. -/
def neighborsList (g : FBGraph) (u : Nat) : List Nat :=
  g.edges.foldl (nbrStep u) []

/-- `get_mutual_friends(user1, user2)`: intersection of the two neighbour
sets, after the membership check on both users. -/
def getMutualFriends (g : FBGraph) (u v : Nat) : Except Err (List Nat) :=
  if !hasVertex g u || !hasVertex g v then .error .unknownVertex
  else .ok ((neighborsList g u).filter (fun x => x ∈ neighborsList g v))

/-- `get_friend_count(user)`: networkx `degree` (a self-loop counts twice),
after the membership check. -/
def getFriendCount (g : FBGraph) (u : Nat) : Except Err Nat :=
  if !hasVertex g u then .error .unknownVertex
  else .ok ((neighborsList g u).length + (if isNeighbor g u u then 1 else 0))

/-- Python `set.update`-style union keeping first-insertion order. -/
def listUnion (a b : List Nat) : List Nat := b.foldl insertAbsent a

/-- `get_friends_of_friends(user)`: union of the neighbours of each friend,
then `discard(user)`, then set difference with the friends. -/
def getFriendsOfFriends (g : FBGraph) (u : Nat) : Except Err (List Nat) :=
  if !hasVertex g u then .error .unknownVertex
  else
    let friends := neighborsList g u
    let fof := friends.foldl (fun acc f => listUnion acc (neighborsList g f)) []
    .ok ((fof.filter (fun x => x ≠ u)).filter (fun x => x ∉ friends))

/-- Result of the inner `for neighbor in self.graph.neighbors(node)` loop of
`find_connection_path`: either an early `return path + [end]`, or the
updated queue and visited set. -/
inductive ExpandResult where
  | found (p : List Nat)
  | cont (queue : List (Nat × List Nat)) (visited : List Nat)
deriving DecidableEq

/-- The neighbour loop body: `if neighbor == end: return path + [end]`,
else enqueue unvisited neighbours with their extended paths. -/
def expand (endV : Nat) (path : List Nat) :
    List Nat → List (Nat × List Nat) → List Nat → ExpandResult
  | [], queue, visited => .cont queue visited
  | n :: rest, queue, visited =>
    if n = endV then .found (path ++ [endV])
    else if n ∈ visited then expand endV path rest queue visited
    else expand endV path rest (queue ++ [(n, path ++ [n])]) (visited ++ [n])

/-- The `while queue:` loop of `find_connection_path`, with explicit fuel
(each iteration pops one queue entry; the fuel chosen in
`findConnectionPath` exceeds the number of possible enqueues). -/
def bfsLoop (g : FBGraph) (endV maxDepth : Nat) :
    Nat → List (Nat × List Nat) → List Nat → Option (List Nat)
  | 0, _, _ => none
  | _ + 1, [], _ => none
  | fuel + 1, (node, path) :: rest, visited =>
    if maxDepth < path.length then none
    else
      match expand endV path (neighborsList g node) rest visited with
      | .found p => some p
      | .cont q v => bfsLoop g endV maxDepth fuel q v

/-- Fuel bound: at most one initial entry plus one enqueue per vertex, and
the vertex count is at most twice the edge count. -/
def bfsFuel (g : FBGraph) : Nat := 2 * g.edges.length + 2

/-- `find_connection_path(start, end, max_depth)`: membership check on both
endpoints, then BFS with queue seeded `[(start, [start])]` and visited
seeded `{start}`. -/
def findConnectionPath (g : FBGraph) (s e maxDepth : Nat) :
    Except Err (Option (List Nat)) :=
  if !hasVertex g s || !hasVertex g e then .error .unknownVertex
  else .ok (bfsLoop g e maxDepth (bfsFuel g) [(s, [s])] [s])

/-- One recorded `add_probabilistic_connection` as seen by a lookup of the
pair `(u, v)`: the insertion wrote both dict orderings, so it hits iff its
pair is `{u, v}` (in either order), and the latest hit wins. -/
def probStep (u v : Nat) (acc : ℚ) (e : Nat × Nat × ℚ) : ℚ :=
  if (e.1 = u ∧ e.2.1 = v) ∨ (e.1 = v ∧ e.2.1 = u) then e.2.2 else acc

/-- `get_probability(user1, user2)`:
`self.prob_graph.get(user1, {}).get(user2, 0)`. Every recorded insertion
wrote both orderings, so the lookup is the last insertion matching the
unordered pair, defaulting to 0. -/
def getProbability (g : FBGraph) (u v : Nat) : ℚ :=
  g.probs.foldl (probStep u v) 0

/-- Did the query raise (Python: the call threw `ValueError`)? -/
def isErr {α : Type} : Except Err α → Bool
  | .error _ => true
  | .ok _ => false

/-- Example graph: path 0 - 1 - 2. -/
def exPath2 : FBGraph := buildGraph [(0, 1), (1, 2)]

/-- Example graph: single edge 0 - 1. -/
def exEdge : FBGraph := buildGraph [(0, 1)]

/-- Example graph: single edge 5 - 6. -/
def exEdge56 : FBGraph := buildGraph [(5, 6)]

/-- Example graph for friends-of-friends: triangle 0-1-2 plus pendant 1-3. -/
def exFof : FBGraph := buildGraph [(0, 1), (0, 2), (1, 2), (1, 3)]

/-- Example probabilistic store holding an out-of-range value 2. -/
def exProbBad : FBGraph := addProbabilisticConnection emptyGraph 0 1 2

/-- Example probabilistic store holding 7/10 for the pair (0, 1). -/
def exProbOk : FBGraph := addProbabilisticConnection emptyGraph 0 1 (7/10)

/-- Consecutive entries of `p` are edges of `g`. -/
def IsChain (g : FBGraph) (p : List Nat) : Prop :=
  List.Chain' (fun a b => isNeighbor g a b = true) p

/-- A walk from `s` to `e` along edges of `g` using at most `d` edges:
this is exactly what "a path of edge count at most d exists" means. -/
def WalkWithin (g : FBGraph) (s e d : Nat) (q : List Nat) : Prop :=
  q.head? = some s ∧ q.getLast? = some e ∧ IsChain g q ∧ q.length - 1 ≤ d

/-- Invariant of each `(node, path)` entry of the BFS queue: `path` is a
nonempty duplicate-free walk from `s` to `node`, all its vertices are
visited, and (when `s ≠ endV`) it avoids `endV`. -/
def GoodItem (g : FBGraph) (s endV : Nat) (visited : List Nat)
    (it : Nat × List Nat) : Prop :=
  it.2.head? = some s ∧ it.2.getLast? = some it.1 ∧ IsChain g it.2 ∧
  it.2 ≠ [] ∧ (∀ x ∈ it.2, x ∈ visited) ∧ it.2.Nodup ∧
  (s ≠ endV → endV ∉ it.2)

/-- Every queue entry satisfies `GoodItem`. -/
def GoodQueue (g : FBGraph) (s endV : Nat)
    (queue : List (Nat × List Nat)) (visited : List Nat) : Prop :=
  ∀ it ∈ queue, GoodItem g s endV visited it

/-! ### Membership toolkit for the list-as-set operations -/

theorem mem_insertAbsent (l : List Nat) (x y : Nat) :
    y ∈ insertAbsent l x ↔ y ∈ l ∨ y = x := by
  unfold insertAbsent
  split
  · constructor
    · exact Or.inl
    · rintro (h | rfl) <;> assumption
  · simp

theorem mem_nbrStep (u x : Nat) (acc : List Nat) (e : Nat × Nat) :
    x ∈ nbrStep u acc e ↔
      x ∈ acc ∨ (e.1 = u ∧ e.2 = x) ∨ (e.2 = u ∧ e.1 = x) := by
  unfold nbrStep
  split
  · next h1 =>
    rw [mem_insertAbsent]
    constructor
    · rintro (h | rfl)
      · exact Or.inl h
      · exact Or.inr (Or.inl ⟨h1, rfl⟩)
    · rintro (h | ⟨-, rfl⟩ | ⟨h2, rfl⟩)
      · exact Or.inl h
      · exact Or.inr rfl
      · exact Or.inr (h1.trans h2.symm)
  · next h1 =>
    split
    · next h2 =>
      rw [mem_insertAbsent]
      constructor
      · rintro (h | rfl)
        · exact Or.inl h
        · exact Or.inr (Or.inr ⟨h2, rfl⟩)
      · rintro (h | ⟨h3, rfl⟩ | ⟨-, rfl⟩)
        · exact Or.inl h
        · exact absurd h3 h1
        · exact Or.inr rfl
    · next h2 =>
      constructor
      · exact Or.inl
      · rintro (h | ⟨h3, rfl⟩ | ⟨h3, rfl⟩)
        · exact h
        · exact absurd h3 h1
        · exact absurd h3 h2

theorem mem_foldl_nbrStep (u x : Nat) :
    ∀ (l : List (Nat × Nat)) (acc : List Nat),
      x ∈ l.foldl (nbrStep u) acc ↔
        x ∈ acc ∨ ∃ e ∈ l, (e.1 = u ∧ e.2 = x) ∨ (e.2 = u ∧ e.1 = x) := by
  intro l
  induction l with
  | nil => simp
  | cons e t ih =>
    intro acc
    rw [List.foldl_cons, ih, mem_nbrStep]
    simp only [List.mem_cons]
    constructor
    · rintro ((h | h) | ⟨f, hf, h⟩)
      · exact Or.inl h
      · exact Or.inr ⟨e, Or.inl rfl, h⟩
      · exact Or.inr ⟨f, Or.inr hf, h⟩
    · rintro (h | ⟨f, (rfl | hf), h⟩)
      · exact Or.inl (Or.inl h)
      · exact Or.inl (Or.inr h)
      · exact Or.inr ⟨f, hf, h⟩

theorem mem_neighborsList (g : FBGraph) (u x : Nat) :
    x ∈ neighborsList g u ↔
      ∃ e ∈ g.edges, (e.1 = u ∧ e.2 = x) ∨ (e.2 = u ∧ e.1 = x) := by
  rw [neighborsList, mem_foldl_nbrStep]
  simp

theorem isNeighbor_eq_true_iff (g : FBGraph) (u v : Nat) :
    isNeighbor g u v = true ↔
      ∃ e ∈ g.edges, (e.1 = u ∧ e.2 = v) ∨ (e.1 = v ∧ e.2 = u) := by
  unfold isNeighbor
  simp [List.any_eq_true]

theorem mem_neighborsList_iff_isNeighbor (g : FBGraph) (u x : Nat) :
    x ∈ neighborsList g u ↔ isNeighbor g u x = true := by
  rw [mem_neighborsList, isNeighbor_eq_true_iff]
  constructor
  · rintro ⟨e, he, ⟨h1, h2⟩ | ⟨h1, h2⟩⟩
    · exact ⟨e, he, Or.inl ⟨h1, h2⟩⟩
    · exact ⟨e, he, Or.inr ⟨h2, h1⟩⟩
  · rintro ⟨e, he, ⟨h1, h2⟩ | ⟨h1, h2⟩⟩
    · exact ⟨e, he, Or.inl ⟨h1, h2⟩⟩
    · exact ⟨e, he, Or.inr ⟨h2, h1⟩⟩

theorem mem_foldl_insertAbsent (x : Nat) :
    ∀ (b a : List Nat), x ∈ b.foldl insertAbsent a ↔ x ∈ a ∨ x ∈ b := by
  intro b
  induction b with
  | nil => simp
  | cons y t ih =>
    intro a
    rw [List.foldl_cons, ih, mem_insertAbsent]
    simp only [List.mem_cons]
    tauto

theorem mem_listUnion (a b : List Nat) (x : Nat) :
    x ∈ listUnion a b ↔ x ∈ a ∨ x ∈ b :=
  mem_foldl_insertAbsent x b a

theorem mem_fofFold (g : FBGraph) (x : Nat) :
    ∀ (friends acc : List Nat),
      x ∈ friends.foldl (fun acc f => listUnion acc (neighborsList g f)) acc ↔
        x ∈ acc ∨ ∃ f ∈ friends, x ∈ neighborsList g f := by
  intro friends
  induction friends with
  | nil => simp
  | cons f t ih =>
    intro acc
    rw [List.foldl_cons, ih, mem_listUnion]
    simp only [List.mem_cons]
    constructor
    · rintro ((h | h) | ⟨f2, hf2, h⟩)
      · exact Or.inl h
      · exact Or.inr ⟨f, Or.inl rfl, h⟩
      · exact Or.inr ⟨f2, Or.inr hf2, h⟩
    · rintro (h | ⟨f2, (rfl | hf2), h⟩)
      · exact Or.inl (Or.inl h)
      · exact Or.inl (Or.inr h)
      · exact Or.inr ⟨f2, hf2, h⟩

/-! ### BFS invariant for `find_connection_path` -/

theorem GoodItem.mono {g : FBGraph} {s endV : Nat}
    {visited visited' : List Nat} {it : Nat × List Nat}
    (hsub : ∀ x ∈ visited, x ∈ visited')
    (h : GoodItem g s endV visited it) : GoodItem g s endV visited' it :=
  ⟨h.1, h.2.1, h.2.2.1, h.2.2.2.1, fun x hx => hsub x (h.2.2.2.2.1 x hx),
    h.2.2.2.2.2.1, h.2.2.2.2.2.2⟩

theorem getLast?_append_singleton (l : List Nat) (a : Nat) :
    (l ++ [a]).getLast? = some a := by
  induction l with
  | nil => rfl
  | cons x t ih =>
    rw [List.cons_append]
    cases t with
    | nil => rfl
    | cons y u =>
      rw [List.cons_append, List.getLast?_cons_cons, ← List.cons_append]
      exact ih

theorem expand_found_eq (endV : Nat) (path : List Nat) :
    ∀ (nbrs : List Nat) (queue : List (Nat × List Nat)) (visited : List Nat)
      (p : List Nat), expand endV path nbrs queue visited = .found p →
      p = path ++ [endV] ∧ endV ∈ nbrs := by
  intro nbrs
  induction nbrs with
  | nil =>
    intro queue visited p h
    exact absurd h (by simp [expand])
  | cons n rest ih =>
    intro queue visited p h
    rw [expand] at h
    split at h
    · next h1 =>
      rw [ExpandResult.found.injEq] at h
      exact ⟨h.symm, by rw [h1]; exact List.mem_cons_self endV rest⟩
    · next h1 =>
      split at h
      · obtain ⟨hp, hm⟩ := ih _ _ _ h
        exact ⟨hp, List.mem_cons_of_mem n hm⟩
      · obtain ⟨hp, hm⟩ := ih _ _ _ h
        exact ⟨hp, List.mem_cons_of_mem n hm⟩

theorem expand_cont_good (g : FBGraph) (s endV node : Nat) (path : List Nat) :
    ∀ (nbrs : List Nat) (queue : List (Nat × List Nat)) (visited : List Nat)
      (q' : List (Nat × List Nat)) (v' : List Nat),
      (∀ n ∈ nbrs, isNeighbor g node n = true) →
      GoodQueue g s endV queue visited →
      GoodItem g s endV visited (node, path) →
      expand endV path nbrs queue visited = .cont q' v' →
      GoodQueue g s endV q' v' := by
  intro nbrs
  induction nbrs with
  | nil =>
    intro queue visited q' v' _ hq _ h
    rw [expand, ExpandResult.cont.injEq] at h
    rw [← h.1, ← h.2]
    exact hq
  | cons n rest ih =>
    intro queue visited q' v' hn hq hitem h
    rw [expand] at h
    split at h
    · exact absurd h (by simp)
    · next h1 =>
      split at h
      · exact ih _ _ _ _ (fun m hm => hn m (List.mem_cons_of_mem n hm)) hq hitem h
      · next h2 =>
        obtain ⟨hhead, hlast, hchain, hne, hsub, hnodup, hend⟩ := hitem
        have hmono : ∀ x ∈ visited, x ∈ visited ++ [n] :=
          fun x hx => List.mem_append_left _ hx
        have hnpath : n ∉ path := fun hmem => h2 (hsub n hmem)
        have hnewitem : GoodItem g s endV (visited ++ [n]) (n, path ++ [n]) := by
          refine ⟨?_, ?_, ?_, ?_, ?_, ?_, ?_⟩
          · rw [List.head?_append_of_ne_nil path hne]
            exact hhead
          · exact getLast?_append_singleton path n
          · refine List.chain'_append.2 ⟨hchain, List.chain'_singleton n, ?_⟩
            intro x hx y hy
            rw [hlast, Option.mem_def, Option.some.injEq] at hx
            rw [List.head?_cons, Option.mem_def, Option.some.injEq] at hy
            rw [← hx, ← hy]
            exact hn n (List.mem_cons_self n rest)
          · simp
          · intro x hx
            rcases List.mem_append.1 hx with hx | hx
            · exact List.mem_append_left _ (hsub x hx)
            · exact List.mem_append_right _ hx
          · exact List.nodup_append.2 ⟨hnodup, List.nodup_singleton n,
              fun a ha hb => hnpath ((List.mem_singleton.1 hb) ▸ ha)⟩
          · intro hse hmem
            rcases List.mem_append.1 hmem with hmem | hmem
            · exact hend hse hmem
            · exact h1 ((List.mem_singleton.1 hmem).symm)
        refine ih _ _ _ _ (fun m hm => hn m (List.mem_cons_of_mem n hm)) ?_
          (GoodItem.mono hmono ⟨hhead, hlast, hchain, hne, hsub, hnodup, hend⟩) h
        intro it hit
        rcases List.mem_append.1 hit with hit | hit
        · exact GoodItem.mono hmono (hq it hit)
        · rw [List.mem_singleton.1 hit]
          exact hnewitem

theorem bfsLoop_some (g : FBGraph) (s endV maxDepth : Nat) :
    ∀ (fuel : Nat) (queue : List (Nat × List Nat)) (visited : List Nat)
      (p : List Nat),
      GoodQueue g s endV queue visited →
      bfsLoop g endV maxDepth fuel queue visited = some p →
      p.head? = some s ∧ p.getLast? = some endV ∧ IsChain g p ∧
      p.length - 1 ≤ maxDepth ∧ 2 ≤ p.length ∧ (s ≠ endV → p.Nodup) := by
  intro fuel
  induction fuel with
  | zero =>
    intro queue visited p _ h
    exact absurd h (by simp [bfsLoop])
  | succ fuel ih =>
    intro queue visited p hq h
    match queue with
    | [] => exact absurd h (by simp [bfsLoop])
    | (node, path) :: rest =>
      rw [bfsLoop] at h
      split at h
      · exact absurd h (by simp)
      · next hguard =>
        have hdepth : path.length ≤ maxDepth := Nat.le_of_not_lt hguard
        cases hexp : expand endV path (neighborsList g node) rest visited with
        | found p2 =>
          rw [hexp] at h
          rw [Option.some.injEq] at h
          obtain ⟨hp2, hmem⟩ := expand_found_eq endV path _ _ _ p2 hexp
          obtain ⟨hhead, hlast, hchain, hne, _, hnodup, hend⟩ :=
            hq (node, path) (List.mem_cons_self _ rest)
          have hnbr : isNeighbor g node endV = true :=
            (mem_neighborsList_iff_isNeighbor g node endV).1 hmem
          rw [← h, hp2]
          have hlen : (path ++ [endV]).length = path.length + 1 := by
            rw [List.length_append, List.length_singleton]
          refine ⟨?_, ?_, ?_, ?_, ?_, ?_⟩
          · rw [List.head?_append_of_ne_nil path hne]
            exact hhead
          · exact getLast?_append_singleton path endV
          · refine List.chain'_append.2 ⟨hchain, List.chain'_singleton endV, ?_⟩
            intro x hx y hy
            rw [hlast, Option.mem_def, Option.some.injEq] at hx
            rw [List.head?_cons, Option.mem_def, Option.some.injEq] at hy
            rw [← hx, ← hy]
            exact hnbr
          · rw [hlen]
            simpa using hdepth
          · rw [hlen]
            have : 1 ≤ path.length := List.length_pos.2 hne
            omega
          · intro hse
            exact List.nodup_append.2 ⟨hnodup, List.nodup_singleton endV,
              fun a ha hb => hend hse ((List.mem_singleton.1 hb) ▸ ha)⟩
        | cont q v =>
          rw [hexp] at h
          refine ih q v p ?_ h
          refine expand_cont_good g s endV node path _ rest visited q v
            (fun m hm => (mem_neighborsList_iff_isNeighbor g node m).1 hm)
            (fun it hit => hq it (List.mem_cons_of_mem _ hit))
            (hq (node, path) (List.mem_cons_self _ rest)) hexp

theorem findConnectionPath_some (g : FBGraph) (s e d : Nat) (p : List Nat)
    (h : findConnectionPath g s e d = .ok (some p)) :
    p.head? = some s ∧ p.getLast? = some e ∧ IsChain g p ∧
    p.length - 1 ≤ d ∧ 2 ≤ p.length ∧ (s ≠ e → p.Nodup) := by
  unfold findConnectionPath at h
  split at h
  · exact absurd h (by simp)
  · rw [Except.ok.injEq] at h
    refine bfsLoop_some g s e d (bfsFuel g) [(s, [s])] [s] p ?_ h
    intro it hit
    rw [List.mem_singleton.1 hit]
    refine ⟨rfl, rfl, List.chain'_singleton s, by simp, by simp, List.nodup_singleton s, ?_⟩
    intro hse hmem
    exact hse ((List.mem_singleton.1 hmem).symm)

theorem findConnectionPath_ok (g : FBGraph) (s e d : Nat)
    (hs : hasVertex g s = true) (he : hasVertex g e = true) :
    findConnectionPath g s e d =
      .ok (bfsLoop g e d (bfsFuel g) [(s, [s])] [s]) := by
  unfold findConnectionPath
  rw [hs, he]
  rfl

/-! ### Helpers for the probabilistic store -/

theorem probFold_bounds (u v : Nat) :
    ∀ (l : List (Nat × Nat × ℚ)) (acc : ℚ),
      (∀ e ∈ l, 0 ≤ e.2.2 ∧ e.2.2 ≤ 1) → 0 ≤ acc → acc ≤ 1 →
      0 ≤ l.foldl (probStep u v) acc ∧ l.foldl (probStep u v) acc ≤ 1 := by
  intro l
  induction l with
  | nil =>
    intro acc _ h0 h1
    exact ⟨h0, h1⟩
  | cons e t ih =>
    intro acc h h0 h1
    rw [List.foldl_cons]
    unfold probStep
    split
    · exact ih _ (fun f hf => h f (List.mem_cons_of_mem e hf))
        (h e (List.mem_cons_self e t)).1 (h e (List.mem_cons_self e t)).2
    · exact ih _ (fun f hf => h f (List.mem_cons_of_mem e hf)) h0 h1

theorem probFold_absent (u v : Nat) :
    ∀ (l : List (Nat × Nat × ℚ)) (acc : ℚ),
      (∀ e ∈ l, ¬ ((e.1 = u ∧ e.2.1 = v) ∨ (e.1 = v ∧ e.2.1 = u))) →
      l.foldl (probStep u v) acc = acc := by
  intro l
  induction l with
  | nil =>
    intro acc _
    rfl
  | cons e t ih =>
    intro acc h
    rw [List.foldl_cons, probStep, if_neg (h e (List.mem_cons_self e t))]
    exact ih _ (fun f hf => h f (List.mem_cons_of_mem e hf))

theorem bfsLoop_probs_irrel (g : FBGraph) (u v : Nat) (pr : ℚ)
    (endV maxDepth : Nat) :
    ∀ (fuel : Nat) (queue : List (Nat × List Nat)) (visited : List Nat),
      bfsLoop (addProbabilisticConnection g u v pr) endV maxDepth fuel
          queue visited =
        bfsLoop g endV maxDepth fuel queue visited := by
  intro fuel
  induction fuel with
  | zero =>
    intro queue visited
    rfl
  | succ fuel ih =>
    intro queue visited
    match queue with
    | [] => rfl
    | (node, path) :: rest =>
      rw [bfsLoop, bfsLoop,
        show neighborsList (addProbabilisticConnection g u v pr) node =
          neighborsList g node from rfl]
      split
      · rfl
      · cases hexp : expand endV path (neighborsList g node) rest visited with
        | found p2 => rfl
        | cont q w => exact ih q w

theorem findConnectionPath_probs_irrel (g : FBGraph) (u v : Nat) (pr : ℚ)
    (s e d : Nat) :
    findConnectionPath (addProbabilisticConnection g u v pr) s e d =
      findConnectionPath g s e d := by
  unfold findConnectionPath
  rw [show hasVertex (addProbabilisticConnection g u v pr) s =
        hasVertex g s from rfl,
      show hasVertex (addProbabilisticConnection g u v pr) e =
        hasVertex g e from rfl,
      show bfsFuel (addProbabilisticConnection g u v pr) = bfsFuel g from rfl,
      bfsLoop_probs_irrel]

/-! ### Claim theorems -/

/-- Claim C1: for every graph and bound `d`, when both endpoints are present,
any path returned by `find_connection_path` has at most `d` edges, and when
no walk of at most `d` edges joins the endpoints the call returns `None`
(not a path and not an error). -/
theorem claim_C1 (g : FBGraph) (s e d : Nat)
    (hs : hasVertex g s = true) (he : hasVertex g e = true) :
    (∀ p, findConnectionPath g s e d = .ok (some p) → p.length - 1 ≤ d) ∧
    ((¬ ∃ q, WalkWithin g s e d q) → findConnectionPath g s e d = .ok none) := by
  constructor
  · intro p hp
    exact (findConnectionPath_some g s e d p hp).2.2.2.1
  · intro hnone
    rw [findConnectionPath_ok g s e d hs he]
    cases hres : bfsLoop g e d (bfsFuel g) [(s, [s])] [s] with
    | none => rfl
    | some p =>
      exfalso
      have hp : findConnectionPath g s e d = .ok (some p) := by
        rw [findConnectionPath_ok g s e d hs he, hres]
      obtain ⟨h1, h2, h3, h4, -, -⟩ := findConnectionPath_some g s e d p hp
      exact hnone ⟨p, h1, h2, h3, h4⟩

/-- Witness for C1 on the path graph 0 - 1 - 2 with both endpoints present. -/
theorem claim_C1_witness :
    (∀ p, findConnectionPath exPath2 0 2 3 = .ok (some p) → p.length - 1 ≤ 3) ∧
    ((¬ ∃ q, WalkWithin exPath2 0 2 3 q) →
      findConnectionPath exPath2 0 2 3 = .ok none) :=
  claim_C1 exPath2 0 2 3 rfl rfl

/-- Claim C2: every path returned by `find_connection_path` starts at
`start`, ends at `end`, and each consecutive pair is an edge of the graph. -/
theorem claim_C2 (g : FBGraph) (s e d : Nat) (p : List Nat)
    (h : findConnectionPath g s e d = .ok (some p)) :
    p.head? = some s ∧ p.getLast? = some e ∧ IsChain g p :=
  ⟨(findConnectionPath_some g s e d p h).1,
    (findConnectionPath_some g s e d p h).2.1,
    (findConnectionPath_some g s e d p h).2.2.1⟩

/-- Witness for C2 on the concrete returned path `[0, 1, 2]`. -/
theorem claim_C2_witness :
    ([0, 1, 2] : List Nat).head? = some 0 ∧
    ([0, 1, 2] : List Nat).getLast? = some 2 ∧ IsChain exPath2 [0, 1, 2] :=
  claim_C2 exPath2 0 2 3 [0, 1, 2] rfl

/-- Claim C3: each deterministic-graph query raises `UnknownVertex` exactly
when a referenced vertex was never recorded by `add_connection`, and every
raised error is `UnknownVertex` (never a silently empty result). -/
theorem claim_C3 (g : FBGraph) (u v x s e d : Nat) :
    isErr (getMutualFriends g u v) = (!hasVertex g u || !hasVertex g v) ∧
    isErr (findConnectionPath g s e d) = (!hasVertex g s || !hasVertex g e) ∧
    isErr (getFriendCount g x) = !hasVertex g x ∧
    isErr (getFriendsOfFriends g x) = !hasVertex g x ∧
    (getMutualFriends g u v = .error .unknownVertex ∨
      isErr (getMutualFriends g u v) = false) ∧
    (findConnectionPath g s e d = .error .unknownVertex ∨
      isErr (findConnectionPath g s e d) = false) ∧
    (getFriendCount g x = .error .unknownVertex ∨
      isErr (getFriendCount g x) = false) ∧
    (getFriendsOfFriends g x = .error .unknownVertex ∨
      isErr (getFriendsOfFriends g x) = false) := by
  refine ⟨?_, ?_, ?_, ?_, ?_, ?_, ?_, ?_⟩
  · rw [getMutualFriends]
    cases hcond : (!hasVertex g u || !hasVertex g v) <;> simp [hcond, isErr]
  · rw [findConnectionPath]
    cases hcond : (!hasVertex g s || !hasVertex g e) <;> simp [hcond, isErr]
  · rw [getFriendCount]
    cases hcond : (!hasVertex g x) <;> simp [hcond, isErr]
  · rw [getFriendsOfFriends]
    cases hcond : (!hasVertex g x) <;> simp [hcond, isErr]
  · cases hr : getMutualFriends g u v with
    | error err => cases err; exact Or.inl rfl
    | ok r => exact Or.inr rfl
  · cases hr : findConnectionPath g s e d with
    | error err => cases err; exact Or.inl rfl
    | ok r => exact Or.inr rfl
  · cases hr : getFriendCount g x with
    | error err => cases err; exact Or.inl rfl
    | ok r => exact Or.inr rfl
  · cases hr : getFriendsOfFriends g x with
    | error err => cases err; exact Or.inl rfl
    | ok r => exact Or.inr rfl

/-- Claim C4: for a present vertex `u`, `get_friends_of_friends(u)` is
exactly the union of the neighbours of the neighbours of `u`, minus the
neighbours of `u`, minus `u` itself. -/
theorem claim_C4 (g : FBGraph) (u : Nat) (fof : List Nat)
    (h : getFriendsOfFriends g u = .ok fof) (x : Nat) :
    x ∈ fof ↔ ((∃ f ∈ neighborsList g u, x ∈ neighborsList g f) ∧
      x ∉ neighborsList g u ∧ x ≠ u) := by
  rw [getFriendsOfFriends] at h
  split at h
  · exact absurd h (by simp)
  · rw [Except.ok.injEq] at h
    rw [← h]
    simp only [List.mem_filter, decide_eq_true_eq, mem_fofFold,
      List.not_mem_nil, false_or]
    tauto

/-- Witness for C4 on the triangle-plus-pendant graph, where the friends of
friends of `0` are exactly `[3]`. -/
theorem claim_C4_witness :
    (3 : Nat) ∈ [3] ↔ ((∃ f ∈ neighborsList exFof 0, 3 ∈ neighborsList exFof f) ∧
      3 ∉ neighborsList exFof 0 ∧ (3 : Nat) ≠ 0) :=
  claim_C4 exFof 0 [3] rfl 3

/-- Claim C5, counterexample: `add_probabilistic_connection` performs no
range validation, so after storing the value 2 for the pair `(0, 1)` the
lookup returns 2, which is not in `[0, 1]`. -/
theorem claim_C5_cx :
    getProbability exProbBad 0 1 = 2 ∧ ¬ (getProbability exProbBad 0 1 ≤ 1) := by
  have h : getProbability exProbBad 0 1 = 2 := rfl
  refine ⟨h, ?_⟩
  rw [h]
  norm_num

/-- Claim C5, amended: a pair never recorded (in either order) returns
exactly 0, unconditionally; and when every recorded probability lies in
`[0, 1]`, `get_probability` returns a value in `[0, 1]`. -/
theorem claim_C5_amended (g : FBGraph) (u v : Nat) :
    ((∀ e ∈ g.probs, 0 ≤ e.2.2 ∧ e.2.2 ≤ 1) →
      0 ≤ getProbability g u v ∧ getProbability g u v ≤ 1) ∧
    ((∀ e ∈ g.probs, ¬ ((e.1 = u ∧ e.2.1 = v) ∨ (e.1 = v ∧ e.2.1 = u))) →
      getProbability g u v = 0) := by
  constructor
  · intro h
    exact probFold_bounds u v g.probs 0 h (le_refl 0) (by norm_num)
  · intro habsent
    exact probFold_absent u v g.probs 0 habsent

/-- Witness for the amended C5: the bound on a store holding 7/10 for the
pair (0, 1), and the unconditional 0 default for the never-recorded pair
(0, 2) on the store that holds an out-of-range value for (0, 1). -/
theorem claim_C5_amended_witness :
    (0 ≤ getProbability exProbOk 0 1 ∧ getProbability exProbOk 0 1 ≤ 1) ∧
    getProbability exProbBad 0 2 = 0 := by
  constructor
  · refine (claim_C5_amended exProbOk 0 1).1 ?_
    intro e he
    rw [show exProbOk.probs = [(0, 1, 7/10)] from rfl, List.mem_singleton] at he
    rw [he]
    norm_num
  · refine (claim_C5_amended exProbBad 0 2).2 ?_
    intro e he
    rw [show exProbBad.probs = [(0, 1, 2)] from rfl, List.mem_singleton] at he
    rw [he]
    decide

/-- Claim C6, counterexample: on the single-edge graph 0 - 1 with vertex 0
present, `find_connection_path(0, 0, 3)` returns the walk `[0, 1, 0]`, not
the 1-element path `[0]`. -/
theorem claim_C6_cx :
    hasVertex exEdge 0 = true ∧
    findConnectionPath exEdge 0 0 3 = .ok (some [0, 1, 0]) ∧
    ([0, 1, 0] : List Nat) ≠ [0] :=
  ⟨rfl, rfl, by decide⟩

/-- Claim C6, amended: there is no special case for `start == end`; any
path the search returns has at least two elements, so the 1-element path
`[start]` is never returned. -/
theorem claim_C6_amended (g : FBGraph) (s d : Nat) (p : List Nat)
    (h : findConnectionPath g s s d = .ok (some p)) :
    2 ≤ p.length ∧ p ≠ [s] := by
  have r := (findConnectionPath_some g s s d p h).2.2.2.2.1
  refine ⟨r, ?_⟩
  intro hp
  rw [hp] at r
  simp at r

/-- Witness for the amended C6 on the single-edge graph. -/
theorem claim_C6_amended_witness :
    2 ≤ ([0, 1, 0] : List Nat).length ∧ ([0, 1, 0] : List Nat) ≠ [0] :=
  claim_C6_amended exEdge 0 3 [0, 1, 0] rfl

/-- Claim C7: after any sequence of `add_connection` calls the adjacency is
symmetric: `v` is a neighbour of `u` iff `u` is a neighbour of `v`. -/
theorem claim_C7 (ops : List (Nat × Nat)) (u v : Nat) :
    v ∈ neighborsList (buildGraph ops) u ↔ u ∈ neighborsList (buildGraph ops) v := by
  rw [mem_neighborsList, mem_neighborsList]
  constructor
  · rintro ⟨e, he, ⟨h1, h2⟩ | ⟨h1, h2⟩⟩
    · exact ⟨e, he, Or.inr ⟨h2, h1⟩⟩
    · exact ⟨e, he, Or.inl ⟨h2, h1⟩⟩
  · rintro ⟨e, he, ⟨h1, h2⟩ | ⟨h1, h2⟩⟩
    · exact ⟨e, he, Or.inr ⟨h2, h1⟩⟩
    · exact ⟨e, he, Or.inl ⟨h2, h1⟩⟩

/-- Witness for C7 on the single-edge insertion sequence `[(0, 1)]`. -/
theorem claim_C7_witness :
    1 ∈ neighborsList (buildGraph [(0, 1)]) 0 ↔
      0 ∈ neighborsList (buildGraph [(0, 1)]) 1 :=
  claim_C7 [(0, 1)] 0 1

/-- Claim C9: the deterministic and probabilistic stores are independent:
`add_probabilistic_connection` changes no deterministic query, and
`add_connection` changes no probability lookup. -/
theorem claim_C9 (g : FBGraph) (u v a b x y s e : Nat) (p : ℚ) (d : Nat) :
    neighborsList (addProbabilisticConnection g u v p) x = neighborsList g x ∧
    getFriendCount (addProbabilisticConnection g u v p) x = getFriendCount g x ∧
    getMutualFriends (addProbabilisticConnection g u v p) x y =
      getMutualFriends g x y ∧
    getFriendsOfFriends (addProbabilisticConnection g u v p) x =
      getFriendsOfFriends g x ∧
    findConnectionPath (addProbabilisticConnection g u v p) s e d =
      findConnectionPath g s e d ∧
    getProbability (addConnection g a b) x y = getProbability g x y :=
  ⟨rfl, rfl, rfl, rfl, findConnectionPath_probs_irrel g u v p s e d, rfl⟩

/-- Claim C10, counterexample: with `start == end` the returned walk
`[5, 6, 5]` repeats the vertex 5, so returned paths are not always simple. -/
theorem claim_C10_cx :
    findConnectionPath exEdge56 5 5 2 = .ok (some [5, 6, 5]) ∧
    ¬ ([5, 6, 5] : List Nat).Nodup :=
  ⟨rfl, by decide⟩

/-- Claim C10, amended: whenever `start ≠ end`, every path returned by
`find_connection_path` is simple (no vertex occurs twice). -/
theorem claim_C10_amended (g : FBGraph) (s e d : Nat) (p : List Nat)
    (hne : s ≠ e) (h : findConnectionPath g s e d = .ok (some p)) :
    p.Nodup :=
  (findConnectionPath_some g s e d p h).2.2.2.2.2 hne

/-- Witness for the amended C10 on the concrete simple path `[0, 1, 2]`. -/
theorem claim_C10_amended_witness : ([0, 1, 2] : List Nat).Nodup :=
  claim_C10_amended exPath2 0 2 3 [0, 1, 2] (by decide) rfl

end FB
